import Mathlib

/-!
Verification development for the task-handler library (src/src/index.js).

The source is a single JavaScript module exposing `createTaskHandler`.  Each
handler owns a registry (a `Map`) from caller-supplied task ids to pairs of
(task reference, canceller thunk).  A task reference carries a mutable
`status` record, a `lastResult` slot, a lazily created pending promise, and
two hidden protocol hooks, `EXECUTE_RESULT` and `TASK_CANCELLED`, through
which the handler delivers results and cancellation.

The shallow embedding below mirrors that structure:

* `JSVal` is a small universe of JavaScript values sufficient for the
  behaviours under study (primitives, the cancellation sentinel symbol,
  error objects and plain non-error objects, both with a mutable `taskRef`
  slot).
* `RefState` is the mutable state of one task reference.  The pair
  `promise`/`promiseActions` of the source is modelled by the flag
  `pending` (a created and not yet settled promise) together with
  `settleLog`, the ordered record of every settlement performed on the
  reference's promises (`resolvedWith r` for `promiseActions[0](ref)`,
  `rejectedWith e` for `promiseActions[1](e)`).
* `HState` is the state of one handler: a heap of all task-reference
  objects ever created (keyed by an object identity `refId`), the registry
  mapping task ids to refIds, and the `nextRid` counter supplying fresh
  object identities.
* `Event`/`stepE`/`runEvents` give the possible interleavings of public
  operations, timer firings and observer calls, used to reason about
  reachable states.
-/

inductive TaskType where
  | after
  | defer
  | every
  | job
deriving DecidableEq

/-- Printable name of a task type, as interpolated into the source's usage
error messages. -/
def typeName : TaskType → String
  | .after => "after"
  | .defer => "defer"
  | .every => "every"
  | .job => "job"

/-- A small universe of JavaScript values: the primitives the library
touches, the `TASK_CANCELLED` sentinel symbol, error objects and plain
(non-error) objects.  Both object forms carry the mutable `taskRef` slot
that `EXECUTE_RESULT` assigns to. -/
inductive JSVal where
  | undef
  | nullv
  | boolean (b : Bool)
  | number (n : Int)
  | strv (s : String)
  | cancelledSentinel
  | errorObj (msg : String) (taskRef : Option Nat)
  | plainObj (tag : Nat) (taskRef : Option Nat)
deriving DecidableEq

/-- JavaScript truthiness, as used by the `if (err)` test in
`EXECUTE_RESULT`. -/
def truthy : JSVal → Bool
  | .undef => false
  | .nullv => false
  | .boolean b => b
  | .number n => n != 0
  | .strv s => s != ""
  | .cancelledSentinel => true
  | .errorObj _ _ => true
  | .plainObj _ _ => true

/-- Whether `typeof v` is the string "object" in JavaScript: true for
`null` and for every object, false for all other primitives and for
symbols.  This is the test `EXECUTE_RESULT` applies to a truthy `err`
before deciding whether to wrap it in a new error object. -/
def isObjectType : JSVal → Bool
  | .nullv => true
  | .errorObj _ _ => true
  | .plainObj _ _ => true
  | _ => false

/-- The ToString coercion performed by `new Error(v)` to obtain the error
message, for the values on which it returns normally.  In JavaScript,
ToString on a Symbol throws a TypeError instead of returning — so for the
cancellation-sentinel symbol `new Error(v)` never constructs an error
object; the sentinel case below is a dead placeholder that no theorem
relies on, and every statement about the error-wrapping branch of
`EXECUTE_RESULT` restricts itself to `toStringSafe` values. -/
def jsToString : JSVal → String
  | .undef => "undefined"
  | .nullv => "null"
  | .boolean b => cond b "true" "false"
  | .number n => toString n
  | .strv s => s
  | .cancelledSentinel => ""
  | .errorObj m _ => String.append "Error: " m
  | .plainObj _ _ => "[object Object]"

/-- Whether the ToString coercion applied by `new Error(v)` returns
normally in JavaScript: true for every value except symbols, whose
ToString throws a TypeError.  The only symbol in this universe is the
cancellation sentinel.  Rejecting with a symbol makes the source's
`new Error(err)` at the wrap branch throw instead of settling, an escape
path this embedding does not model; accordingly the error-normalization
theorem carries `toStringSafe` as a hypothesis. -/
def toStringSafe : JSVal → Bool
  | .cancelledSentinel => false
  | _ => true

/-- The assignment `error.taskRef = ref` of `EXECUTE_RESULT` (a property
write on an object value; a no-op on non-objects, which cannot reach that
code path). -/
def setTaskRef (v : JSVal) (r : Nat) : JSVal :=
  match v with
  | .errorObj m _ => .errorObj m (some r)
  | .plainObj t _ => .plainObj t (some r)
  | w => w

structure Status where
  complete : Bool
  error : Bool
  cancelled : Bool
deriving DecidableEq

/-- One settlement of a pending promise belonging to a task reference:
either the resolve action applied to the reference itself (identified by
its refId), or the reject action applied to an error value. -/
inductive Settlement where
  | resolvedWith (rid : Nat)
  | rejectedWith (e : JSVal)
deriving DecidableEq

/-- The job object returned by a job factory; the only part the handler
inspects is whether a `cancelled` hook function is present. -/
structure JobHandle where
  hasCancelledHook : Bool
deriving DecidableEq

/-- State of one task reference (the closure state of `createTaskRef`):
`refId` is the object identity, `id` the caller-supplied task id, `pending`
models a created and not yet settled promise (`promise`/`promiseActions`
present), and `settleLog` records every settlement performed. -/
structure RefState where
  refId : Nat
  id : Nat
  type : TaskType
  status : Status
  lastResult : JSVal
  pending : Bool
  settleLog : List Settlement
  job : Option JobHandle
deriving DecidableEq

/-- The hidden `TASK_CANCELLED` protocol hook of a task reference: no-op if
already complete; otherwise stores the cancellation sentinel, marks
cancelled and complete, settles a pending promise on the resolve path with
the reference itself, and pushes the job's `cancelled()` awaitable (when
present) onto the collected promises. -/
def TASK_CANCELLED (s : RefState) (promises : List Nat) : RefState × List Nat :=
  if s.status.complete then (s, promises)
  else
    let s1 : RefState :=
      { s with lastResult := JSVal.cancelledSentinel,
               status := { s.status with cancelled := true, complete := true } }
    let s2 : RefState :=
      if s1.pending then
        { s1 with pending := false,
                  settleLog := s1.settleLog ++ [Settlement.resolvedWith s.refId] }
      else s1
    let promises2 : List Nat :=
      match s.job with
      | some j => if j.hasCancelledHook then promises ++ [s.refId] else promises
      | none => promises
    (s2, promises2)

/-- The hidden `EXECUTE_RESULT(err, result)` protocol hook: no-op if
already complete; otherwise records the result, marks complete for
non-`every` types, and settles a pending promise — on the reject path when
`err` is truthy (wrapping a non-object `err` in `new Error(err)` and
attaching `taskRef`), on the resolve path with the reference otherwise.
For a symbol `err` the source's `new Error(err)` throws a TypeError out of
the hook before settling; that host-exception escape is not modelled here,
so statements about the wrap branch assume `toStringSafe err`. -/
def EXECUTE_RESULT (s : RefState) (err res : JSVal) : RefState :=
  if s.status.complete then s
  else
    let s1 : RefState := { s with lastResult := res }
    let s2 : RefState :=
      if s1.type = TaskType.every then s1
      else { s1 with status := { s1.status with complete := true } }
    if s2.pending then
      if truthy err then
        let e0 : JSVal := if isObjectType err then err else JSVal.errorObj (jsToString err) none
        { s2 with pending := false,
                  settleLog := s2.settleLog ++ [Settlement.rejectedWith (setTaskRef e0 s.refId)] }
      else
        { s2 with pending := false,
                  settleLog := s2.settleLog ++ [Settlement.resolvedWith s.refId] }
    else s2

/-- `ref.resolve(result)` delegates to `EXECUTE_RESULT(undefined, result)`. -/
def RefState.resolve (s : RefState) (res : JSVal) : RefState :=
  EXECUTE_RESULT s JSVal.undef res

/-- `ref.reject(err)` delegates to `EXECUTE_RESULT(err)`, leaving the
result argument `undefined`. -/
def RefState.reject (s : RefState) (err : JSVal) : RefState :=
  EXECUTE_RESULT s err JSVal.undef

/-- The `result` getter: the last produced value when complete, otherwise
`undefined`. -/
def RefState.result (s : RefState) : JSVal :=
  if s.status.complete then s.lastResult else JSVal.undef

/-- The usage-error message thrown by the `promise` getter on an iterative
task. -/
def promiseErrMsg (ty : TaskType) (id : Nat) : String :=
  String.append
    "[ERROR] | task-handler | \"ref.promise()\" may only be used with non-iterative tasks such as after, defer, and job, but tried with \""
    (String.append (typeName ty)
      (String.append "\" task with ID: \"" (String.append (toString id) "\"")))

/-- The usage-error message thrown by the `promises` getter on a
non-iterative task. -/
def promisesErrMsg (ty : TaskType) (id : Nat) : String :=
  String.append
    "[ERROR] | task-handler | \"ref.promises()\" may only be used with iterative tasks such as every and everyNow, but tried with \""
    (String.append (typeName ty)
      (String.append "\" task with ID: \"" (String.append (toString id) "\"")))

/-- Calling `ref.promise()`: the getter throws a usage error for `every`
type references (second component `some msg`, state unchanged); otherwise
the returned async function runs to its first await: an existing promise
or an already-complete reference leaves the state unchanged, else
`getNextPromise()` arms a pending promise. -/
def promiseCall (s : RefState) : RefState × Option String :=
  if s.type = TaskType.every then (s, some (promiseErrMsg s.type s.id))
  else if s.pending then (s, none)
  else if s.status.complete then (s, none)
  else ({ s with pending := true }, none)

/-- Calling `ref.promises()`: the getter throws a usage error for
non-`every` type references; otherwise it returns the async generator,
whose body does not run until first iterated, so the state is unchanged. -/
def promisesCall (s : RefState) : RefState × Option String :=
  if s.type = TaskType.every then (s, none)
  else (s, some (promisesErrMsg s.type s.id))

/-- The two synchronous field writes performed by `ref.cancel()` before it
delegates to `handler.cancel(id)`: `lastResult = TASK_CANCELLED` and
`ref.status.cancelled = true`. -/
def markCancel (s : RefState) : RefState :=
  { s with lastResult := JSVal.cancelledSentinel,
           status := { s.status with cancelled := true } }

/-- The state effect, on one reference, of an observer arming the lazy
pending promise: `promisedResult` (for non-iterative tasks) and the loop
body of `promiseIterator` (for iterative tasks) both call
`getNextPromise()` exactly when the reference is neither complete nor
already holding a promise. -/
def armObserve (s : RefState) : RefState :=
  if s.status.complete then s
  else if s.pending then s
  else { s with pending := true }

/-- Outcome of running the caller-supplied callback inside `execute`:
either it returns a value or it throws. -/
inductive FnOutcome where
  | ret (v : JSVal)
  | throws (e : JSVal)
deriving DecidableEq

/-- The body of the handler's `execute`: invoke the callback (an omitted
callback produces `undefined`), feed a normal return into
`EXECUTE_RESULT(undefined, result)` and a throw into `EXECUTE_RESULT(e)`. -/
def executeFire (s : RefState) (outcome : Option FnOutcome) : RefState :=
  match outcome with
  | none => EXECUTE_RESULT s JSVal.undef JSVal.undef
  | some (.ret v) => EXECUTE_RESULT s JSVal.undef v
  | some (.throws e) => EXECUTE_RESULT s e JSVal.undef

/-!
Association-list operations modelling the handler's `Map` from task ids to
registered references, and the heap of task-reference objects keyed by
object identity.
-/

/-- First-match lookup in an association list (`Map.get`). -/
def lookupA {α : Type} (m : List (Nat × α)) (k : Nat) : Option α :=
  match m with
  | [] => none
  | (k1, v) :: rest => if k1 = k then some v else lookupA rest k

/-- Replace the first binding of `k`, or append one (`Map.set`). -/
def setA {α : Type} (m : List (Nat × α)) (k : Nat) (v : α) : List (Nat × α) :=
  match m with
  | [] => [(k, v)]
  | (k1, v1) :: rest => if k1 = k then (k, v) :: rest else (k1, v1) :: setA rest k v

/-- Remove the first binding of `k` (`Map.delete`). -/
def eraseA {α : Type} (m : List (Nat × α)) (k : Nat) : List (Nat × α) :=
  match m with
  | [] => []
  | (k1, v1) :: rest => if k1 = k then rest else (k1, v1) :: eraseA rest k

/-- State of one task handler: the heap of every task-reference object
created so far (keyed by object identity `refId`), the registry `refs`
from task id to the refId of the currently registered reference, and the
counter supplying fresh object identities. -/
structure HState where
  heap : List (Nat × RefState)
  registry : List (Nat × Nat)
  nextRid : Nat
deriving DecidableEq

/-- A freshly constructed handler: `createTaskHandler()` starts with an
empty `refs` map. -/
def emptyH : HState := { heap := [], registry := [], nextRid := 0 }

/-- The handler's internal `cancelID(id, promises)`: if the id is
registered, run the canceller thunk (timer teardown, no reference-state
effect), delete the registry entry, and invoke the reference's
`TASK_CANCELLED` hook with the collected promises. -/
def cancelID (h : HState) (id : Nat) (promises : List Nat) : HState × List Nat :=
  match lookupA h.registry id with
  | none => (h, promises)
  | some rid =>
    let h1 : HState := { h with registry := eraseA h.registry id }
    match lookupA h.heap rid with
    | none => (h1, promises)
    | some ref =>
      let out := TASK_CANCELLED ref promises
      ({ h1 with heap := setA h1.heap rid out.1 }, out.2)

/-- The public `cancel(...ids)`: fold `cancelID` over the ids, starting
from an empty collected-promises array; the second component is the array
the returned joiner's `promise()` would wait on. -/
def handlerCancel (h : HState) (ids : List Nat) : HState × List Nat :=
  ids.foldl (fun acc id => cancelID acc.1 id acc.2) (h, [])

/-- The public `clear()`: cancel every currently registered id. -/
def clearH (h : HState) : HState × List Nat :=
  handlerCancel h (h.registry.map Prod.fst)

/-- The fresh reference object built by `createTaskRef`.  When a job
descriptor is given, the job object is instantiated and
`ref.promise().catch(NOOP)` arms the pending promise before `job.start`
runs, so the reference starts out pending; `job.start` itself is external
caller code whose `resolve`/`reject` calls appear as separate events. -/
def newTaskRef (rid id : Nat) (ty : TaskType) (jd : Option JobHandle) : RefState :=
  { refId := rid, id := id, type := ty,
    status := { complete := false, error := false, cancelled := false },
    lastResult := JSVal.undef, pending := jd.isSome, settleLog := [], job := jd }

/-- `createTaskRef(type, id, handler, jobDescriptor)`: first calls
`handler.cancel(id)` (cancelling any prior task under the id), then builds
the fresh reference object under the next free object identity. -/
def createTaskRef (h : HState) (ty : TaskType) (id : Nat) (jd : Option JobHandle) :
    HState × Nat :=
  let h1 := (handlerCancel h [id]).1
  let rid := h1.nextRid
  ({ h1 with heap := setA h1.heap rid (newTaskRef rid id ty jd), nextRid := rid + 1 }, rid)

/-- Common shape of the five creation operations: build the reference via
`createTaskRef`, arm the underlying timer or queue entry (external), and
register `refs.set(id, [ref, canceller])`. -/
def registerOp (h : HState) (ty : TaskType) (id : Nat) (jd : Option JobHandle) :
    HState × Nat :=
  let p := createTaskRef h ty id jd
  ({ p.1 with registry := setA p.1.registry id p.2 }, p.2)

/-- `after(id, delay, fn, ...args)`: one-shot delayed task. -/
def opAfter (h : HState) (id : Nat) : HState × Nat := registerOp h TaskType.after id none

/-- `defer(id, fn, ...args)`: one-shot coalesced task. -/
def opDefer (h : HState) (id : Nat) : HState × Nat := registerOp h TaskType.defer id none

/-- `every(id, interval, fn, ...args)`: recurring task. -/
def opEvery (h : HState) (id : Nat) : HState × Nat := registerOp h TaskType.every id none

/-- `everyNow(id, interval, fn, ...args)`: recurring task with an
additional immediate queue-based firing; the reference is created with
type `every`. -/
def opEveryNow (h : HState) (id : Nat) : HState × Nat := registerOp h TaskType.every id none

/-- `job(id, getJob, ...args)`: externally driven task carrying a job
descriptor. -/
def opJob (h : HState) (id : Nat) (hook : Bool) : HState × Nat :=
  registerOp h TaskType.job id (some { hasCancelledHook := hook })

/-- Apply a reference-state transformer to the heap object `rid`, if it
exists (mutation of a live reference object). -/
def updRef (h : HState) (rid : Nat) (f : RefState → RefState) : HState :=
  match lookupA h.heap rid with
  | none => h
  | some s => { h with heap := setA h.heap rid (f s) }

/-- A timer or queue firing delivering the callback's outcome to the
reference through `execute`. -/
def fireH (h : HState) (rid : Nat) (outcome : Option FnOutcome) : HState :=
  updRef h rid (fun s => executeFire s outcome)

/-- An observer call arming the lazy pending promise of a reference. -/
def observeH (h : HState) (rid : Nat) : HState :=
  updRef h rid armObserve

/-- `ref.cancel()`: store the sentinel, mark cancelled, then delegate to
the owning handler's public `cancel(id)` (whose joiner is discarded). -/
def refCancel (h : HState) (rid : Nat) : HState :=
  match lookupA h.heap rid with
  | none => h
  | some ref =>
    (handlerCancel { h with heap := setA h.heap rid (markCancel ref) } [ref.id]).1

/-- One observable event against a handler: a creation operation, a timer
or queue firing, an observer arming a promise, a manual resolve or reject,
a reference or bulk cancellation, or `clear()`. -/
inductive Event where
  | evAfter (id : Nat)
  | evDefer (id : Nat)
  | evEvery (id : Nat)
  | evEveryNow (id : Nat)
  | evJob (id : Nat) (hook : Bool)
  | evFire (rid : Nat) (outcome : Option FnOutcome)
  | evObserve (rid : Nat)
  | evResolve (rid : Nat) (v : JSVal)
  | evReject (rid : Nat) (e : JSVal)
  | evRefCancel (rid : Nat)
  | evCancel (ids : List Nat)
  | evClear
deriving DecidableEq

/-- Interpretation of one event. -/
def stepE (h : HState) (e : Event) : HState :=
  match e with
  | .evAfter id => (opAfter h id).1
  | .evDefer id => (opDefer h id).1
  | .evEvery id => (opEvery h id).1
  | .evEveryNow id => (opEveryNow h id).1
  | .evJob id hook => (opJob h id hook).1
  | .evFire rid outcome => fireH h rid outcome
  | .evObserve rid => observeH h rid
  | .evResolve rid v => updRef h rid (fun s => RefState.resolve s v)
  | .evReject rid e2 => updRef h rid (fun s => RefState.reject s e2)
  | .evRefCancel rid => refCancel h rid
  | .evCancel ids => (handlerCancel h ids).1
  | .evClear => (clearH h).1

/-- Handler state reached by running a sequence of events from a fresh
handler. -/
def runEvents (es : List Event) : HState :=
  es.foldl stepE emptyH

/-!
Concrete handler and reference states used to instantiate the general
theorems below at explicit inputs.
-/

/-- Handler holding a live, observed `every` task under id 5 (refId 0). -/
def c1exH : HState := runEvents [Event.evEvery 5, Event.evObserve 0]

/-- The reference registered in `c1exH`: an `every` task with an armed
pending promise. -/
def c1exOld : RefState :=
  { refId := 0, id := 5, type := TaskType.every,
    status := { complete := false, error := false, cancelled := false },
    lastResult := JSVal.undef, pending := true, settleLog := [], job := none }

/-- Events creating and observing an `every` task under id 7. -/
def c3exEvents : List Event := [Event.evEvery 7, Event.evObserve 0]

/-- The reference reached by `c3exEvents` at refId 0. -/
def c3exRef : RefState :=
  { refId := 0, id := 7, type := TaskType.every,
    status := { complete := false, error := false, cancelled := false },
    lastResult := JSVal.undef, pending := true, settleLog := [], job := none }

/-- A freshly armed recurring reference. -/
def c4exRef : RefState :=
  { refId := 1, id := 9, type := TaskType.every,
    status := { complete := false, error := false, cancelled := false },
    lastResult := JSVal.undef, pending := true, settleLog := [], job := none }

/-- A completed one-shot reference holding a normal result. -/
def c5exRef : RefState :=
  { refId := 2, id := 4, type := TaskType.after,
    status := { complete := true, error := false, cancelled := false },
    lastResult := JSVal.number 9, pending := false,
    settleLog := [Settlement.resolvedWith 2], job := none }

/-- A pending one-shot reference awaiting its first settlement. -/
def c6exRef : RefState :=
  { refId := 3, id := 1, type := TaskType.after,
    status := { complete := false, error := false, cancelled := false },
    lastResult := JSVal.undef, pending := true, settleLog := [], job := none }

/-- A recurring reference, for exercising the `promise()` usage error. -/
def c7exEvery : RefState :=
  { refId := 4, id := 6, type := TaskType.every,
    status := { complete := false, error := false, cancelled := false },
    lastResult := JSVal.undef, pending := false, settleLog := [], job := none }

/-- A one-shot reference, for exercising the `promises()` usage error. -/
def c7exAfter : RefState :=
  { refId := 5, id := 8, type := TaskType.after,
    status := { complete := false, error := false, cancelled := false },
    lastResult := JSVal.undef, pending := false, settleLog := [], job := none }

/-- Handler holding one armed `after` task under id 1 (refId 0). -/
def c8exH : HState := runEvents [Event.evAfter 1]

/-- Handler whose `after` task under id 2 has fired and completed with 5. -/
def c9exH : HState :=
  runEvents [Event.evAfter 2, Event.evFire 0 (some (FnOutcome.ret (JSVal.number 5)))]

/-- The completed reference stored in `c9exH` at refId 0. -/
def c9exRef : RefState :=
  { refId := 0, id := 2, type := TaskType.after,
    status := { complete := true, error := false, cancelled := false },
    lastResult := JSVal.number 5, pending := false, settleLog := [], job := none }

/-- A pending one-shot reference for the falsy-rejection witness. -/
def c10exRef : RefState :=
  { refId := 6, id := 3, type := TaskType.after,
    status := { complete := false, error := false, cancelled := false },
    lastResult := JSVal.undef, pending := true, settleLog := [], job := none }

/-!
Lemmas about the association-list operations.
-/

theorem lookupA_setA_self {α : Type} (m : List (Nat × α)) (k : Nat) (v : α) :
    lookupA (setA m k v) k = some v := by
  induction m with
  | nil => simp [setA, lookupA]
  | cons p rest ih =>
    obtain ⟨a, b⟩ := p
    by_cases hk : a = k
    · simp [setA, hk, lookupA]
    · simp [setA, hk, lookupA, ih]

theorem lookupA_setA_ne {α : Type} (m : List (Nat × α)) (k k1 : Nat) (v : α)
    (h : k1 ≠ k) : lookupA (setA m k v) k1 = lookupA m k1 := by
  have hk1 : ¬ (k = k1) := fun hc => h hc.symm
  induction m with
  | nil => simp [setA, lookupA, hk1]
  | cons p rest ih =>
    obtain ⟨a, b⟩ := p
    by_cases hk : a = k
    · subst hk
      simp [setA, lookupA, hk1]
    · simp only [setA, if_neg hk, lookupA]
      by_cases ha : a = k1
      · simp [ha]
      · simp [ha, ih]

theorem lookupA_eraseA_ne {α : Type} (m : List (Nat × α)) (k k1 : Nat)
    (h : k1 ≠ k) : lookupA (eraseA m k) k1 = lookupA m k1 := by
  induction m with
  | nil => simp [eraseA]
  | cons p rest ih =>
    obtain ⟨a, b⟩ := p
    by_cases hk : a = k
    · subst hk
      have ha : ¬ (a = k1) := fun hc => h hc.symm
      simp [eraseA, lookupA, ha]
    · simp only [eraseA, if_neg hk, lookupA]
      by_cases ha : a = k1
      · simp [ha]
      · simp [ha, ih]

theorem lookupA_mem_keys {α : Type} (m : List (Nat × α)) (k : Nat) (v : α)
    (h : lookupA m k = some v) : k ∈ m.map Prod.fst := by
  induction m with
  | nil => simp [lookupA] at h
  | cons p rest ih =>
    obtain ⟨a, b⟩ := p
    by_cases hk : a = k
    · simp [hk]
    · simp only [lookupA, if_neg hk] at h
      simp [ih h]

theorem lookupA_mem {α : Type} (m : List (Nat × α)) (k : Nat) (v : α)
    (h : lookupA m k = some v) : (k, v) ∈ m := by
  induction m with
  | nil => simp [lookupA] at h
  | cons p rest ih =>
    obtain ⟨a, b⟩ := p
    by_cases hk : a = k
    · subst hk
      have h2 : b = v := by simpa [lookupA] using h
      subst h2
      exact List.mem_cons_self _ _
    · simp only [lookupA, if_neg hk] at h
      exact List.mem_cons_of_mem _ (ih h)

theorem lookupA_eraseA_self {α : Type} (m : List (Nat × α)) (k : Nat)
    (hnd : (m.map Prod.fst).Nodup) : lookupA (eraseA m k) k = none := by
  induction m with
  | nil => simp [eraseA, lookupA]
  | cons p rest ih =>
    obtain ⟨a, b⟩ := p
    simp only [List.map_cons, List.nodup_cons] at hnd
    by_cases hk : a = k
    · subst hk
      simp only [eraseA, if_pos rfl]
      cases hl : lookupA rest a with
      | none => exact hl
      | some v => exact absurd (lookupA_mem_keys rest a v hl) hnd.1
    · simp only [eraseA, if_neg hk, lookupA, if_neg hk]
      exact ih hnd.2

theorem setA_setA {α : Type} (m : List (Nat × α)) (k : Nat) (v w : α) :
    setA (setA m k v) k w = setA m k w := by
  induction m with
  | nil => simp [setA]
  | cons p rest ih =>
    obtain ⟨a, b⟩ := p
    by_cases hk : a = k
    · simp [setA, hk]
    · simp [setA, hk, ih]

theorem setA_self {α : Type} (m : List (Nat × α)) (k : Nat) (v : α)
    (h : lookupA m k = some v) : setA m k v = m := by
  induction m with
  | nil => simp [lookupA] at h
  | cons p rest ih =>
    obtain ⟨a, b⟩ := p
    by_cases hk : a = k
    · subst hk
      have h2 : b = v := by simpa [lookupA] using h
      subst h2
      simp [setA]
    · simp only [lookupA, if_neg hk] at h
      simp [setA, hk, ih h]

theorem mem_setA {α : Type} (m : List (Nat × α)) (k : Nat) (v : α) (p : Nat × α)
    (h : p ∈ setA m k v) : p = (k, v) ∨ p ∈ m := by
  induction m with
  | nil =>
    simp [setA] at h
    exact Or.inl h
  | cons q rest ih =>
    obtain ⟨a, b⟩ := q
    by_cases hk : a = k
    · simp only [setA, if_pos hk, List.mem_cons] at h
      rcases h with h | h
      · exact Or.inl h
      · exact Or.inr (List.mem_cons_of_mem _ h)
    · simp only [setA, if_neg hk, List.mem_cons] at h
      rcases h with h | h
      · exact Or.inr (by simp [h])
      · rcases ih h with h2 | h2
        · exact Or.inl h2
        · exact Or.inr (List.mem_cons_of_mem _ h2)

theorem keys_setA_sub {α : Type} (m : List (Nat × α)) (k : Nat) (v : α) (k1 : Nat)
    (h : k1 ∈ (setA m k v).map Prod.fst) : k1 = k ∨ k1 ∈ m.map Prod.fst := by
  simp only [List.mem_map] at h
  rcases h with ⟨p, hp, hfst⟩
  rcases mem_setA m k v p hp with h2 | h2
  · left
    rw [h2] at hfst
    exact hfst.symm
  · right
    exact List.mem_map.mpr ⟨p, h2, hfst⟩

theorem nodup_setA {α : Type} (m : List (Nat × α)) (k : Nat) (v : α)
    (h : (m.map Prod.fst).Nodup) : ((setA m k v).map Prod.fst).Nodup := by
  induction m with
  | nil => simp [setA]
  | cons p rest ih =>
    obtain ⟨a, b⟩ := p
    simp only [List.map_cons, List.nodup_cons] at h
    by_cases hk : a = k
    · subst hk
      have hset : setA ((a, b) :: rest) a v = (a, v) :: rest := by simp [setA]
      rw [hset]
      simp only [List.map_cons, List.nodup_cons]
      exact ⟨h.1, h.2⟩
    · simp only [setA, if_neg hk, List.map_cons, List.nodup_cons]
      refine ⟨fun hc => ?_, ih h.2⟩
      rcases keys_setA_sub rest k v a hc with h2 | h2
      · exact hk h2
      · exact h.1 h2

theorem mem_eraseA {α : Type} (m : List (Nat × α)) (k : Nat) (p : Nat × α)
    (h : p ∈ eraseA m k) : p ∈ m := by
  induction m with
  | nil => simp [eraseA] at h
  | cons q rest ih =>
    obtain ⟨a, b⟩ := q
    by_cases hk : a = k
    · simp only [eraseA, if_pos hk] at h
      exact List.mem_cons_of_mem _ h
    · simp only [eraseA, if_neg hk, List.mem_cons] at h
      rcases h with h | h
      · simp [h]
      · exact List.mem_cons_of_mem _ (ih h)

theorem nodup_eraseA {α : Type} (m : List (Nat × α)) (k : Nat)
    (h : (m.map Prod.fst).Nodup) : ((eraseA m k).map Prod.fst).Nodup := by
  induction m with
  | nil => simp [eraseA]
  | cons p rest ih =>
    obtain ⟨a, b⟩ := p
    simp only [List.map_cons, List.nodup_cons] at h
    by_cases hk : a = k
    · simp only [eraseA, if_pos hk]
      exact h.2
    · simp only [eraseA, if_neg hk, List.map_cons, List.nodup_cons]
      refine ⟨fun hc => ?_, ih h.2⟩
      simp only [List.mem_map] at hc
      rcases hc with ⟨q, hq, hfst⟩
      exact h.1 (List.mem_map.mpr ⟨q, mem_eraseA rest k q hq, hfst⟩)

/-!
Lemmas about the task-reference protocol hooks.
-/

theorem EXECUTE_RESULT_of_complete (s : RefState) (err res : JSVal)
    (hc : s.status.complete = true) : EXECUTE_RESULT s err res = s := by
  simp [EXECUTE_RESULT, hc]

theorem TASK_CANCELLED_of_complete (s : RefState) (ps : List Nat)
    (hc : s.status.complete = true) : TASK_CANCELLED s ps = (s, ps) := by
  simp [TASK_CANCELLED, hc]

theorem TASK_CANCELLED_pending_spec (s : RefState) (ps : List Nat)
    (hc : s.status.complete = false) (hp : s.pending = true) :
    (TASK_CANCELLED s ps).1 =
      { s with lastResult := JSVal.cancelledSentinel,
               status := { s.status with cancelled := true, complete := true },
               pending := false,
               settleLog := s.settleLog ++ [Settlement.resolvedWith s.refId] } := by
  simp [TASK_CANCELLED, hc, hp]

theorem TASK_CANCELLED_quiet_spec (s : RefState) (ps : List Nat)
    (hc : s.status.complete = false) (hp : s.pending = false) :
    (TASK_CANCELLED s ps).1 =
      { s with lastResult := JSVal.cancelledSentinel,
               status := { s.status with cancelled := true, complete := true } } := by
  simp [TASK_CANCELLED, hc, hp]

theorem TASK_CANCELLED_fst_id (s : RefState) (ps : List Nat) :
    ((TASK_CANCELLED s ps).1).id = s.id := by
  by_cases hc : s.status.complete
  · rw [TASK_CANCELLED_of_complete s ps hc]
  · by_cases hp : s.pending
    · rw [TASK_CANCELLED_pending_spec s ps (by simpa using hc) hp]
    · rw [TASK_CANCELLED_quiet_spec s ps (by simpa using hc) (by simpa using hp)]

theorem EXECUTE_RESULT_pending_false (s : RefState) (err res : JSVal)
    (hc : s.status.complete = false) : (EXECUTE_RESULT s err res).pending = false := by
  by_cases ht : s.type = TaskType.every <;>
    by_cases hp : s.pending <;>
      by_cases he : truthy err <;>
        simp [EXECUTE_RESULT, hc, ht, hp, he]

theorem TASK_CANCELLED_pending_false (s : RefState) (ps : List Nat)
    (hc : s.status.complete = false) : ((TASK_CANCELLED s ps).1).pending = false := by
  by_cases hp : s.pending
  · rw [TASK_CANCELLED_pending_spec s ps hc hp]
  · rw [TASK_CANCELLED_quiet_spec s ps hc (by simpa using hp)]
    simpa using hp

theorem markCancel_markCancel (s : RefState) : markCancel (markCancel s) = markCancel s := rfl

theorem markCancel_id_eq (s : RefState) : (markCancel s).id = s.id := rfl

theorem markCancel_fix (s : RefState) (h1 : s.lastResult = JSVal.cancelledSentinel)
    (h2 : s.status.cancelled = true) : markCancel s = s := by
  obtain ⟨r, i, t, ⟨c, e, cc⟩, lr, p, sl, j⟩ := s
  simp only [markCancel]
  simp_all

theorem markCancel_TASK_CANCELLED (s : RefState) (ps : List Nat)
    (h : markCancel s = s) :
    markCancel ((TASK_CANCELLED s ps).1) = (TASK_CANCELLED s ps).1 := by
  by_cases hc : s.status.complete
  · rw [TASK_CANCELLED_of_complete s ps hc]
    exact h
  · have hc2 : s.status.complete = false := by simpa using hc
    by_cases hp : s.pending
    · rw [TASK_CANCELLED_pending_spec s ps hc2 hp]
      exact markCancel_fix _ rfl rfl
    · rw [TASK_CANCELLED_quiet_spec s ps hc2 (by simpa using hp)]
      exact markCancel_fix _ rfl rfl

/-!
The per-reference invariant that a pending (created and unsettled) promise
can only exist on a not-yet-complete reference, and its preservation by
every event.  In the source this corresponds to the fact that every write
of `status.complete = true` either settles the pending promise in the same
synchronous step or happens with no promise outstanding, while
`getNextPromise` is only reached behind a `status.complete` check.
-/

def RefInv (s : RefState) : Prop := s.pending = true → s.status.complete = false

theorem refInv_EXECUTE_RESULT (s : RefState) (err res : JSVal) (h : RefInv s) :
    RefInv (EXECUTE_RESULT s err res) := by
  intro hp2
  by_cases hc : s.status.complete
  · rw [EXECUTE_RESULT_of_complete s err res hc] at hp2 ⊢
    exact h hp2
  · have hc2 : s.status.complete = false := by simpa using hc
    rw [EXECUTE_RESULT_pending_false s err res hc2] at hp2
    cases hp2

theorem refInv_TASK_CANCELLED (s : RefState) (ps : List Nat) (h : RefInv s) :
    RefInv ((TASK_CANCELLED s ps).1) := by
  intro hp2
  by_cases hc : s.status.complete
  · rw [TASK_CANCELLED_of_complete s ps hc] at hp2 ⊢
    exact h hp2
  · have hc2 : s.status.complete = false := by simpa using hc
    rw [TASK_CANCELLED_pending_false s ps hc2] at hp2
    cases hp2

theorem refInv_armObserve (s : RefState) (h : RefInv s) : RefInv (armObserve s) := by
  unfold armObserve
  by_cases hc : s.status.complete = true
  · rw [if_pos hc]
    exact h
  · rw [if_neg hc]
    by_cases hp : s.pending = true
    · rw [if_pos hp]
      exact h
    · rw [if_neg hp]
      intro _
      simpa using hc

theorem refInv_markCancel (s : RefState) (h : RefInv s) : RefInv (markCancel s) := by
  intro hp2
  exact h hp2

theorem refInv_executeFire (s : RefState) (outcome : Option FnOutcome) (h : RefInv s) :
    RefInv (executeFire s outcome) := by
  cases outcome with
  | none => exact refInv_EXECUTE_RESULT s _ _ h
  | some o =>
    cases o with
    | ret v => exact refInv_EXECUTE_RESULT s _ _ h
    | throws e => exact refInv_EXECUTE_RESULT s _ _ h

def heapInv (h : HState) : Prop := ∀ p ∈ h.heap, RefInv p.2

theorem heapInv_updRef (h : HState) (rid : Nat) (f : RefState → RefState)
    (hf : ∀ s, RefInv s → RefInv (f s)) (hh : heapInv h) : heapInv (updRef h rid f) := by
  unfold updRef
  cases hl : lookupA h.heap rid with
  | none => exact hh
  | some s =>
    intro p hp
    rcases mem_setA h.heap rid (f s) p hp with h2 | h2
    · rw [h2]
      exact hf s (hh (rid, s) (lookupA_mem h.heap rid s hl))
    · exact hh p h2

theorem cancelID_eq_none (h : HState) (id : Nat) (ps : List Nat)
    (hr : lookupA h.registry id = none) : cancelID h id ps = (h, ps) := by
  unfold cancelID
  rw [hr]

theorem cancelID_eq_miss (h : HState) (id : Nat) (ps : List Nat) (rid : Nat)
    (hr : lookupA h.registry id = some rid) (hl : lookupA h.heap rid = none) :
    cancelID h id ps = ({ h with registry := eraseA h.registry id }, ps) := by
  unfold cancelID
  rw [hr]
  simp only []
  rw [hl]

theorem cancelID_eq_hit (h : HState) (id : Nat) (ps : List Nat) (rid : Nat) (ref : RefState)
    (hr : lookupA h.registry id = some rid) (hl : lookupA h.heap rid = some ref) :
    cancelID h id ps =
      ({ h with registry := eraseA h.registry id,
                heap := setA h.heap rid (TASK_CANCELLED ref ps).1 },
       (TASK_CANCELLED ref ps).2) := by
  unfold cancelID
  rw [hr]
  simp only []
  rw [hl]

theorem heapInv_cancelID (h : HState) (id : Nat) (ps : List Nat) (hh : heapInv h) :
    heapInv (cancelID h id ps).1 := by
  cases hr : lookupA h.registry id with
  | none =>
    rw [cancelID_eq_none h id ps hr]
    exact hh
  | some rid =>
    cases hl : lookupA h.heap rid with
    | none =>
      rw [cancelID_eq_miss h id ps rid hr hl]
      exact hh
    | some ref =>
      rw [cancelID_eq_hit h id ps rid ref hr hl]
      intro p hp
      rcases mem_setA h.heap rid (TASK_CANCELLED ref ps).1 p hp with h2 | h2
      · rw [h2]
        exact refInv_TASK_CANCELLED ref ps (hh (rid, ref) (lookupA_mem h.heap rid ref hl))
      · exact hh p h2

theorem heapInv_foldl_cancel (ids : List Nat) :
    ∀ (h : HState) (ps : List Nat), heapInv h →
      heapInv (ids.foldl (fun acc id => cancelID acc.1 id acc.2) (h, ps)).1 := by
  induction ids with
  | nil => intro h ps hh; exact hh
  | cons id rest ih =>
    intro h ps hh
    simp only [List.foldl_cons]
    have h2 := heapInv_cancelID h id ps hh
    have : cancelID h id ps = ((cancelID h id ps).1, (cancelID h id ps).2) := rfl
    rw [this]
    exact ih _ _ h2

theorem heapInv_handlerCancel (h : HState) (ids : List Nat) (hh : heapInv h) :
    heapInv (handlerCancel h ids).1 :=
  heapInv_foldl_cancel ids h [] hh

theorem heapInv_registerOp (h : HState) (ty : TaskType) (id : Nat) (jd : Option JobHandle)
    (hh : heapInv h) : heapInv (registerOp h ty id jd).1 := by
  unfold registerOp createTaskRef
  intro p hp
  rcases mem_setA _ _ _ p hp with h2 | h2
  · rw [h2]
    intro _
    rfl
  · exact heapInv_handlerCancel h [id] hh p h2

theorem heapInv_refCancel (h : HState) (rid : Nat) (hh : heapInv h) :
    heapInv (refCancel h rid) := by
  unfold refCancel
  cases hl : lookupA h.heap rid with
  | none => exact hh
  | some ref =>
    apply heapInv_handlerCancel
    intro p hp
    rcases mem_setA h.heap rid (markCancel ref) p hp with h2 | h2
    · rw [h2]
      exact refInv_markCancel ref (hh (rid, ref) (lookupA_mem h.heap rid ref hl))
    · exact hh p h2

theorem heapInv_stepE (h : HState) (e : Event) (hh : heapInv h) : heapInv (stepE h e) := by
  cases e with
  | evAfter id => exact heapInv_registerOp h _ id none hh
  | evDefer id => exact heapInv_registerOp h _ id none hh
  | evEvery id => exact heapInv_registerOp h _ id none hh
  | evEveryNow id => exact heapInv_registerOp h _ id none hh
  | evJob id hook => exact heapInv_registerOp h _ id _ hh
  | evFire rid outcome =>
    exact heapInv_updRef h rid _ (fun s hs => refInv_executeFire s outcome hs) hh
  | evObserve rid => exact heapInv_updRef h rid _ refInv_armObserve hh
  | evResolve rid v =>
    exact heapInv_updRef h rid _ (fun s hs => refInv_EXECUTE_RESULT s _ _ hs) hh
  | evReject rid e2 =>
    exact heapInv_updRef h rid _ (fun s hs => refInv_EXECUTE_RESULT s _ _ hs) hh
  | evRefCancel rid => exact heapInv_refCancel h rid hh
  | evCancel ids => exact heapInv_handlerCancel h ids hh
  | evClear => exact heapInv_handlerCancel h _ hh

theorem heapInv_runEvents (es : List Event) : heapInv (runEvents es) := by
  unfold runEvents
  have hgen : ∀ (h : HState), heapInv h → heapInv (es.foldl stepE h) := by
    induction es with
    | nil => intro h hh; exact hh
    | cons e rest ih =>
      intro h hh
      simp only [List.foldl_cons]
      exact ih _ (heapInv_stepE h e hh)
  exact hgen emptyH (by intro p hp; cases hp)

/-!
Characterisations of the handler operations, used in the claim proofs.
-/

theorem handlerCancel_one (h : HState) (id : Nat) :
    handlerCancel h [id] = cancelID h id [] := rfl

theorem updRef_eq_none (h : HState) (rid : Nat) (f : RefState → RefState)
    (hl : lookupA h.heap rid = none) : updRef h rid f = h := by
  unfold updRef
  rw [hl]

theorem updRef_eq (h : HState) (rid : Nat) (f : RefState → RefState) (s : RefState)
    (hl : lookupA h.heap rid = some s) :
    updRef h rid f = { h with heap := setA h.heap rid (f s) } := by
  unfold updRef
  rw [hl]

theorem refCancel_eq_none (h : HState) (rid : Nat)
    (hl : lookupA h.heap rid = none) : refCancel h rid = h := by
  unfold refCancel
  rw [hl]

theorem refCancel_eq (h : HState) (rid : Nat) (ref : RefState)
    (hl : lookupA h.heap rid = some ref) :
    refCancel h rid =
      (cancelID { h with heap := setA h.heap rid (markCancel ref) } ref.id []).1 := by
  unfold refCancel
  rw [hl]
  simp only []
  rw [handlerCancel_one]

theorem refCancel_fixed (h : HState) (rid : Nat) (s : RefState)
    (hl : lookupA h.heap rid = some s) (hfix : markCancel s = s)
    (hreg : lookupA h.registry s.id = none) : refCancel h rid = h := by
  rw [refCancel_eq h rid s hl, hfix, setA_self h.heap rid s hl]
  have he : ({ h with heap := h.heap } : HState) = h := rfl
  rw [he, cancelID_eq_none h s.id [] hreg]

theorem EXECUTE_RESULT_every (s : RefState) (err res : JSVal)
    (ht : s.type = TaskType.every) :
    (EXECUTE_RESULT s err res).status.complete = s.status.complete ∧
    (EXECUTE_RESULT s err res).type = s.type := by
  by_cases hc : s.status.complete = true
  · rw [EXECUTE_RESULT_of_complete s err res hc]
    exact ⟨rfl, rfl⟩
  · have hc2 : s.status.complete = false := by simpa using hc
    by_cases hp : s.pending = true <;> by_cases he : truthy err = true <;>
      simp [EXECUTE_RESULT, hc2, ht, hp, he]

/-!
Claim theorems.
-/

/-- C5: for a reference of a non-recurring kind with `status.complete`
true, every further call of the result-delivery hook — including `resolve`
and `reject` — returns the state unchanged: status, lastResult and the
settlement record are untouched. -/
theorem nonrecurring_completion_terminal (s : RefState) (err res v w : JSVal)
    (ht : s.type ≠ TaskType.every) (hc : s.status.complete = true) :
    EXECUTE_RESULT s err res = s ∧
    RefState.resolve s v = s ∧
    RefState.reject s w = s :=
  ⟨EXECUTE_RESULT_of_complete s err res hc,
   EXECUTE_RESULT_of_complete s JSVal.undef v hc,
   EXECUTE_RESULT_of_complete s w JSVal.undef hc⟩

/-- Witness for C5 at a concrete completed `after` reference. -/
theorem nonrecurring_completion_terminal_witness :
    EXECUTE_RESULT c5exRef JSVal.undef (JSVal.number 1) = c5exRef ∧
    RefState.resolve c5exRef (JSVal.number 2) = c5exRef ∧
    RefState.reject c5exRef (JSVal.strv "e") = c5exRef :=
  nonrecurring_completion_terminal c5exRef JSVal.undef (JSVal.number 1)
    (JSVal.number 2) (JSVal.strv "e") (by decide) rfl

/-- C10: rejecting with a falsy value is indistinguishable from resolving
with `undefined`: the state transition is identical, and a pending promise
of a not-yet-complete reference is settled on the resolve path with the
reference itself. -/
theorem falsy_reject_resolves (s : RefState) (e : JSVal) (hf : truthy e = false) :
    RefState.reject s e = RefState.resolve s JSVal.undef ∧
    (s.pending = true → s.status.complete = false →
      (RefState.reject s e).settleLog =
        s.settleLog ++ [Settlement.resolvedWith s.refId]) := by
  constructor
  · have h0 : truthy JSVal.undef = false := rfl
    simp [RefState.reject, RefState.resolve, EXECUTE_RESULT, hf, h0]
  · intro hp hc
    by_cases ht : s.type = TaskType.every <;>
      simp [RefState.reject, EXECUTE_RESULT, hc, hp, ht, hf]

/-- Witness for C10: rejecting a pending `after` reference with the number
0 settles on the resolve path. -/
theorem falsy_reject_resolves_witness :
    truthy (JSVal.number 0) = false ∧
    (RefState.reject c10exRef (JSVal.number 0)).settleLog =
      c10exRef.settleLog ++ [Settlement.resolvedWith c10exRef.refId] :=
  ⟨by decide,
   (falsy_reject_resolves c10exRef (JSVal.number 0) (by decide)).2 rfl rfl⟩

/-- C6 counterexample: rejecting with a plain (non-error) object delivers
that object itself on the rejection path — only the `taskRef` property is
attached — and the delivered value is not an error object of any message,
contradicting the claim that every non-error rejection value is normalized
into an error object carrying the original value as its message. -/
theorem object_rejection_not_normalized :
    (RefState.reject c6exRef (JSVal.plainObj 7 none)).settleLog =
      [Settlement.rejectedWith (JSVal.plainObj 7 (some 3))] ∧
    ∀ (m : String) (t : Option Nat),
      JSVal.plainObj 7 (some 3) ≠ JSVal.errorObj m t := by
  refine ⟨rfl, ?_⟩
  intro m t hcontra
  simp at hcontra

/-- C6 (amended): for a truthy rejection value that is neither an object
nor a symbol (a non-empty string, non-zero number, or true — the values on
which the ToString inside `new Error(err)` returns instead of throwing),
the rejection delivered to an observer of the pending promise of a
not-yet-complete reference is an error object whose message is the string
form of the original value and whose `taskRef` is the originating
reference. -/
theorem nonobject_rejection_normalized (s : RefState) (e : JSVal)
    (hp : s.pending = true) (hc : s.status.complete = false)
    (htr : truthy e = true) (hob : isObjectType e = false)
    (hts : toStringSafe e = true) :
    (RefState.reject s e).settleLog =
      s.settleLog ++
        [Settlement.rejectedWith (JSVal.errorObj (jsToString e) (some s.refId))] := by
  by_cases ht : s.type = TaskType.every <;>
    simp [RefState.reject, EXECUTE_RESULT, hc, hp, ht, htr, hob, setTaskRef]

/-- Witness for the amended C6: rejecting a pending `after` reference with
the string "boom". -/
theorem nonobject_rejection_normalized_witness :
    c6exRef.pending = true ∧ c6exRef.status.complete = false ∧
    truthy (JSVal.strv "boom") = true ∧ isObjectType (JSVal.strv "boom") = false ∧
    toStringSafe (JSVal.strv "boom") = true ∧
    (RefState.reject c6exRef (JSVal.strv "boom")).settleLog =
      c6exRef.settleLog ++ [Settlement.rejectedWith (JSVal.errorObj "boom" (some 3))] :=
  ⟨rfl, rfl, by decide, by decide, by decide,
   nonobject_rejection_normalized c6exRef (JSVal.strv "boom") rfl rfl
     (by decide) (by decide) (by decide)⟩

/-- C7: calling `promise()` on a recurring-kind (`every`/`everyNow`)
reference throws the usage error synchronously with the reference state
unchanged, and calling `promises()` on a non-recurring-kind reference
throws the usage error synchronously with the reference state unchanged. -/
theorem promise_getter_usage_errors (s : RefState) :
    (s.type = TaskType.every →
      promiseCall s = (s, some (promiseErrMsg s.type s.id))) ∧
    (s.type ≠ TaskType.every →
      promisesCall s = (s, some (promisesErrMsg s.type s.id))) := by
  constructor
  · intro ht
    simp [promiseCall, ht]
  · intro ht
    simp [promisesCall, ht]

/-- Witness for C7 at a concrete `every` reference and a concrete `after`
reference. -/
theorem promise_getter_usage_errors_witness :
    promiseCall c7exEvery = (c7exEvery, some (promiseErrMsg TaskType.every 6)) ∧
    promisesCall c7exAfter = (c7exAfter, some (promisesErrMsg TaskType.after 8)) :=
  ⟨(promise_getter_usage_errors c7exEvery).1 rfl,
   (promise_getter_usage_errors c7exAfter).2 (by decide)⟩

/-- Result-delivery firings leave `status.complete` (and the task type)
unchanged on a recurring reference, over any sequence of firings. -/
theorem foldl_EXECUTE_RESULT_every (l : List (JSVal × JSVal)) :
    ∀ s : RefState, s.type = TaskType.every →
      (l.foldl (fun t pr => EXECUTE_RESULT t pr.1 pr.2) s).status.complete =
        s.status.complete := by
  induction l with
  | nil =>
    intro s _
    rfl
  | cons pr rest ih =>
    intro s ht
    simp only [List.foldl_cons]
    have h1 := EXECUTE_RESULT_every s pr.1 pr.2 ht
    rw [ih (EXECUTE_RESULT s pr.1 pr.2) (by rw [h1.2, ht])]
    exact h1.1

/-- C4: on a recurring (`every`/`everyNow`) reference, no number of
result-delivery firings changes `status.complete`, while the cancellation
hook is what sets `status.complete` to true. -/
theorem recurring_never_self_completes (s : RefState) (l : List (JSVal × JSVal))
    (ps : List Nat) (ht : s.type = TaskType.every) :
    (l.foldl (fun t pr => EXECUTE_RESULT t pr.1 pr.2) s).status.complete =
      s.status.complete ∧
    (s.status.complete = false →
      ((TASK_CANCELLED s ps).1).status.complete = true) := by
  constructor
  · exact foldl_EXECUTE_RESULT_every l s ht
  · intro hc
    by_cases hp : s.pending = true
    · rw [TASK_CANCELLED_pending_spec s ps hc hp]
    · rw [TASK_CANCELLED_quiet_spec s ps hc (by simpa using hp)]

/-- Witness for C4: two firings of a concrete recurring reference leave
`status.complete` false; cancelling sets it. -/
theorem recurring_never_self_completes_witness :
    ([(JSVal.undef, JSVal.number 1), (JSVal.undef, JSVal.number 2)].foldl
      (fun t pr => EXECUTE_RESULT t pr.1 pr.2) c4exRef).status.complete =
      c4exRef.status.complete ∧
    ((TASK_CANCELLED c4exRef []).1).status.complete = true := by
  have hmain := recurring_never_self_completes c4exRef
    [(JSVal.undef, JSVal.number 1), (JSVal.undef, JSVal.number 2)] [] rfl
  exact ⟨hmain.1, hmain.2 rfl⟩

/-- C3: on any reachable reference with a pending promise, the
cancellation hook settles that promise on the resolve path with the
reference itself and sets `status.cancelled`; the cancellation hook never
adds a rejection-path settlement to any reference. -/
theorem cancellation_resolves_pending (es : List Event) (rid : Nat) (s : RefState)
    (ps : List Nat)
    (hm : lookupA (runEvents es).heap rid = some s)
    (hp : s.pending = true) :
    ((TASK_CANCELLED s ps).1).settleLog =
      s.settleLog ++ [Settlement.resolvedWith s.refId] ∧
    ((TASK_CANCELLED s ps).1).status.cancelled = true ∧
    ∀ (t : RefState) (qs : List Nat) (e : JSVal),
      Settlement.rejectedWith e ∈ ((TASK_CANCELLED t qs).1).settleLog →
      Settlement.rejectedWith e ∈ t.settleLog := by
  have hinv : RefInv s := heapInv_runEvents es (rid, s) (lookupA_mem _ rid s hm)
  have hc : s.status.complete = false := hinv hp
  refine ⟨?_, ?_, ?_⟩
  · rw [TASK_CANCELLED_pending_spec s ps hc hp]
  · rw [TASK_CANCELLED_pending_spec s ps hc hp]
  · intro t qs e hmem
    by_cases hct : t.status.complete = true
    · rw [TASK_CANCELLED_of_complete t qs hct] at hmem
      exact hmem
    · have hct2 : t.status.complete = false := by simpa using hct
      by_cases hpt : t.pending = true
      · rw [TASK_CANCELLED_pending_spec t qs hct2 hpt] at hmem
        rcases List.mem_append.mp hmem with h2 | h2
        · exact h2
        · simp at h2
      · rw [TASK_CANCELLED_quiet_spec t qs hct2 (by simpa using hpt)] at hmem
        exact hmem

/-- Witness for C3 at the reachable pending `every` reference of
`c3exEvents`. -/
theorem cancellation_resolves_pending_witness :
    lookupA (runEvents c3exEvents).heap 0 = some c3exRef ∧
    c3exRef.pending = true ∧
    ((TASK_CANCELLED c3exRef []).1).settleLog =
      c3exRef.settleLog ++ [Settlement.resolvedWith c3exRef.refId] ∧
    ((TASK_CANCELLED c3exRef []).1).status.cancelled = true :=
  ⟨by decide, rfl,
   (cancellation_resolves_pending c3exEvents 0 c3exRef [] (by decide) rfl).1,
   (cancellation_resolves_pending c3exEvents 0 c3exRef [] (by decide) rfl).2.1⟩

/-- Heap of the handler state produced by a creation operation, unfolded
one level. -/
theorem registerOp_heap (h : HState) (ty : TaskType) (id : Nat) (jd : Option JobHandle) :
    ((registerOp h ty id jd).1).heap =
      setA ((handlerCancel h [id]).1).heap (((handlerCancel h [id]).1).nextRid)
        (newTaskRef (((handlerCancel h [id]).1).nextRid) id ty jd) := rfl

/-- Registry of the handler state produced by a creation operation,
unfolded one level. -/
theorem registerOp_registry (h : HState) (ty : TaskType) (id : Nat) (jd : Option JobHandle) :
    ((registerOp h ty id jd).1).registry =
      setA (((handlerCancel h [id]).1).registry) id
        (((handlerCancel h [id]).1).nextRid) := rfl

/-- C2: `after(id, 0, fn)` followed by awaiting `ref.promise()` — the
observer arms the pending promise, the timer fires and `fn` returns `v` —
leaves the reference with `result` equal to `v`, `status.complete` true,
`status.error` false, and exactly one settlement, on the resolve path with
the reference itself. -/
theorem after_await_yields_result (h : HState) (id : Nat) (v : JSVal) :
    ∃ s : RefState,
      lookupA (fireH (observeH (opAfter h id).1 (opAfter h id).2) (opAfter h id).2
        (some (FnOutcome.ret v))).heap (opAfter h id).2 = some s ∧
      RefState.result s = v ∧
      s.status.complete = true ∧
      s.status.error = false ∧
      s.settleLog = [Settlement.resolvedWith (opAfter h id).2] := by
  have hnr : lookupA (opAfter h id).1.heap (opAfter h id).2 =
      some (newTaskRef (opAfter h id).2 id TaskType.after none) :=
    lookupA_setA_self _ _ _
  have hobs : observeH (opAfter h id).1 (opAfter h id).2 =
      { (opAfter h id).1 with
        heap := setA (opAfter h id).1.heap (opAfter h id).2
          { newTaskRef (opAfter h id).2 id TaskType.after none with pending := true } } := by
    unfold observeH
    exact updRef_eq _ _ _ _ hnr
  have hlook2 : lookupA (observeH (opAfter h id).1 (opAfter h id).2).heap (opAfter h id).2 =
      some { newTaskRef (opAfter h id).2 id TaskType.after none with pending := true } := by
    rw [hobs]
    exact lookupA_setA_self _ _ _
  have hexec : executeFire
      { newTaskRef (opAfter h id).2 id TaskType.after none with pending := true }
      (some (FnOutcome.ret v)) =
      { refId := (opAfter h id).2, id := id, type := TaskType.after,
        status := { complete := true, error := false, cancelled := false },
        lastResult := v, pending := false,
        settleLog := [Settlement.resolvedWith (opAfter h id).2], job := none } := rfl
  have hfire : fireH (observeH (opAfter h id).1 (opAfter h id).2) (opAfter h id).2
      (some (FnOutcome.ret v)) =
      { observeH (opAfter h id).1 (opAfter h id).2 with
        heap := setA (observeH (opAfter h id).1 (opAfter h id).2).heap (opAfter h id).2
          (executeFire
            { newTaskRef (opAfter h id).2 id TaskType.after none with pending := true }
            (some (FnOutcome.ret v))) } := by
    unfold fireH
    exact updRef_eq _ _ _ _ hlook2
  refine ⟨{ refId := (opAfter h id).2, id := id, type := TaskType.after,
            status := { complete := true, error := false, cancelled := false },
            lastResult := v, pending := false,
            settleLog := [Settlement.resolvedWith (opAfter h id).2], job := none },
          ?_, rfl, rfl, rfl, rfl⟩
  rw [hfire, hexec]
  exact lookupA_setA_self _ _ _

/-- C9: cancelling a non-recurring reference that already completed with a
normal (non-cancelled) result overwrites the stored result with the
cancellation sentinel and sets `status.cancelled`, so `result` thereafter
returns the sentinel. -/
theorem cancel_after_complete_overwrites_result (h : HState) (rid : Nat) (s : RefState)
    (hm : lookupA h.heap rid = some s)
    (hc : s.status.complete = true)
    (hnc : s.status.cancelled = false)
    (ht : s.type ≠ TaskType.every) :
    ∃ s2 : RefState,
      lookupA (refCancel h rid).heap rid = some s2 ∧
      s2.status.cancelled = true ∧
      s2.status.complete = true ∧
      s2.lastResult = JSVal.cancelledSentinel ∧
      RefState.result s2 = JSVal.cancelledSentinel := by
  refine ⟨markCancel s, ?_, rfl, hc, rfl, ?_⟩
  · rw [refCancel_eq h rid s hm]
    cases hr : lookupA ({ h with heap := setA h.heap rid (markCancel s) } : HState).registry
        s.id with
    | none =>
      rw [cancelID_eq_none _ s.id [] hr]
      exact lookupA_setA_self _ _ _
    | some rid2 =>
      cases hl2 : lookupA ({ h with heap := setA h.heap rid (markCancel s) } : HState).heap
          rid2 with
      | none =>
        rw [cancelID_eq_miss _ s.id [] rid2 hr hl2]
        exact lookupA_setA_self _ _ _
      | some refB =>
        rw [cancelID_eq_hit _ s.id [] rid2 refB hr hl2]
        by_cases hrr : rid2 = rid
        · subst hrr
          have h2 : lookupA ({ h with heap := setA h.heap rid2 (markCancel s) } : HState).heap
              rid2 = some (markCancel s) := lookupA_setA_self _ _ _
          have hB : refB = markCancel s := Option.some.inj (hl2.symm.trans h2)
          have hcomp : refB.status.complete = true := by
            rw [hB]
            exact hc
          rw [TASK_CANCELLED_of_complete refB [] hcomp, hB]
          exact lookupA_setA_self _ _ _
        · have hne : rid ≠ rid2 := fun hcc => hrr hcc.symm
          rw [lookupA_setA_ne ({ h with heap := setA h.heap rid (markCancel s) } : HState).heap
            rid2 rid ((TASK_CANCELLED refB []).1) hne]
          exact lookupA_setA_self _ _ _
  · simp [RefState.result, markCancel, hc]

/-- Witness for C9 at a concrete handler whose `after` task completed with
the number 5. -/
theorem cancel_after_complete_overwrites_result_witness :
    ∃ s2 : RefState,
      lookupA (refCancel c9exH 0).heap 0 = some s2 ∧
      s2.status.cancelled = true ∧
      s2.status.complete = true ∧
      s2.lastResult = JSVal.cancelledSentinel ∧
      RefState.result s2 = JSVal.cancelledSentinel :=
  cancel_after_complete_overwrites_result c9exH 0 c9exRef (by decide) rfl rfl (by decide)

/-- C8: calling `ref.cancel()` twice produces exactly the same handler
state (reference status, stored result, registry, and settlement record)
as calling it once. -/
theorem refCancel_idempotent (h : HState) (rid : Nat)
    (hreg : (h.registry.map Prod.fst).Nodup) :
    refCancel (refCancel h rid) rid = refCancel h rid := by
  cases hl : lookupA h.heap rid with
  | none =>
    rw [refCancel_eq_none h rid hl, refCancel_eq_none h rid hl]
  | some ref =>
    rw [refCancel_eq h rid ref hl]
    cases hr : lookupA ({ h with heap := setA h.heap rid (markCancel ref) } : HState).registry
        ref.id with
    | none =>
      rw [cancelID_eq_none _ ref.id [] hr]
      apply refCancel_fixed _ rid (markCancel ref)
      · exact lookupA_setA_self _ _ _
      · exact markCancel_markCancel ref
      · exact hr
    | some rid2 =>
      cases hl2 : lookupA ({ h with heap := setA h.heap rid (markCancel ref) } : HState).heap
          rid2 with
      | none =>
        rw [cancelID_eq_miss _ ref.id [] rid2 hr hl2]
        apply refCancel_fixed _ rid (markCancel ref)
        · exact lookupA_setA_self _ _ _
        · exact markCancel_markCancel ref
        · exact lookupA_eraseA_self h.registry ref.id hreg
      | some refB =>
        rw [cancelID_eq_hit _ ref.id [] rid2 refB hr hl2]
        by_cases hrr : rid2 = rid
        · subst hrr
          have h2 : lookupA ({ h with heap := setA h.heap rid2 (markCancel ref) } : HState).heap
              rid2 = some (markCancel ref) := lookupA_setA_self _ _ _
          have hB : refB = markCancel ref := Option.some.inj (hl2.symm.trans h2)
          apply refCancel_fixed _ rid2 ((TASK_CANCELLED refB []).1)
          · exact lookupA_setA_self _ _ _
          · exact markCancel_TASK_CANCELLED refB []
              (by rw [hB]; exact markCancel_markCancel ref)
          · have hid : ((TASK_CANCELLED refB []).1).id = ref.id := by
              rw [TASK_CANCELLED_fst_id, hB]
              exact markCancel_id_eq ref
            rw [hid]
            exact lookupA_eraseA_self h.registry ref.id hreg
        · have hne : rid ≠ rid2 := fun hcc => hrr hcc.symm
          apply refCancel_fixed _ rid (markCancel ref)
          · rw [lookupA_setA_ne
              ({ h with heap := setA h.heap rid (markCancel ref) } : HState).heap
              rid2 rid ((TASK_CANCELLED refB []).1) hne]
            exact lookupA_setA_self _ _ _
          · exact markCancel_markCancel ref
          · exact lookupA_eraseA_self h.registry ref.id hreg

/-- Witness for C8 at a concrete handler holding one armed `after` task. -/
theorem refCancel_idempotent_witness :
    refCancel (refCancel c8exH 0) 0 = refCancel c8exH 0 :=
  refCancel_idempotent c8exH 0 (by decide)

/-- C1 counterexample: an `after` task fires and completes, yet stays in
the registry; re-registering the same id then runs the cancel path, but
because the prior reference is already complete its `status.cancelled`
stays false and no settlement happens — the claim that the prior
reference's `status.cancelled` becomes true on every re-registration
fails. -/
theorem reRegister_completed_prior_not_cancelled :
    lookupA (runEvents [Event.evAfter 0,
      Event.evFire 0 (some (FnOutcome.ret (JSVal.number 42)))]).registry 0 = some 0 ∧
    Option.map (fun r : RefState => r.status.complete)
      (lookupA (runEvents [Event.evAfter 0,
        Event.evFire 0 (some (FnOutcome.ret (JSVal.number 42)))]).heap 0) = some true ∧
    Option.map (fun r : RefState => r.status.cancelled)
      (lookupA (runEvents [Event.evAfter 0,
        Event.evFire 0 (some (FnOutcome.ret (JSVal.number 42))),
        Event.evAfter 0]).heap 0) = some false ∧
    Option.map (fun r : RefState => r.settleLog)
      (lookupA (runEvents [Event.evAfter 0,
        Event.evFire 0 (some (FnOutcome.ret (JSVal.number 42))),
        Event.evAfter 0]).heap 0) = some [] := by
  decide

/-- C1 (amended): creating a task under an id whose registered prior
reference is not yet complete cancels that prior reference before the new
one is armed — its `status.cancelled` becomes true and its pending promise
(if any) is settled on the resolve path with the prior reference itself —
and the registry keeps at most one entry per id. -/
theorem reRegister_cancels_incomplete_prior (h : HState) (ty : TaskType) (id : Nat)
    (jd : Option JobHandle) (rid0 : Nat) (old : RefState)
    (hreg : (h.registry.map Prod.fst).Nodup)
    (hfresh : ∀ k ∈ h.heap.map Prod.fst, k < h.nextRid)
    (hr : lookupA h.registry id = some rid0)
    (hh : lookupA h.heap rid0 = some old)
    (hincomplete : old.status.complete = false) :
    lookupA ((registerOp h ty id jd).1).heap rid0 = some ((TASK_CANCELLED old []).1) ∧
    ((TASK_CANCELLED old []).1).status.cancelled = true ∧
    (old.pending = true →
      ((TASK_CANCELLED old []).1).settleLog =
        old.settleLog ++ [Settlement.resolvedWith old.refId]) ∧
    ((((registerOp h ty id jd).1).registry).map Prod.fst).Nodup := by
  have hcz : (handlerCancel h [id]).1 =
      { h with registry := eraseA h.registry id,
               heap := setA h.heap rid0 ((TASK_CANCELLED old []).1) } := by
    rw [handlerCancel_one, cancelID_eq_hit h id [] rid0 old hr hh]
  have hne : rid0 ≠ h.nextRid :=
    Nat.ne_of_lt (hfresh rid0 (lookupA_mem_keys h.heap rid0 old hh))
  refine ⟨?_, ?_, ?_, ?_⟩
  · have goal1 : lookupA (setA (setA h.heap rid0 ((TASK_CANCELLED old []).1)) h.nextRid
        (newTaskRef h.nextRid id ty jd)) rid0 = some ((TASK_CANCELLED old []).1) := by
      rw [lookupA_setA_ne _ h.nextRid rid0 _ hne]
      exact lookupA_setA_self _ _ _
    rw [registerOp_heap, hcz]
    exact goal1
  · by_cases hp : old.pending = true
    · rw [TASK_CANCELLED_pending_spec old [] hincomplete hp]
    · rw [TASK_CANCELLED_quiet_spec old [] hincomplete (by simpa using hp)]
  · intro hp
    rw [TASK_CANCELLED_pending_spec old [] hincomplete hp]
  · rw [registerOp_registry, hcz]
    exact nodup_setA (eraseA h.registry id) id h.nextRid
      (nodup_eraseA h.registry id hreg)

/-- Witness for the amended C1: re-registering over a live, observed
`every` task cancels it and resolves its pending promise with itself. -/
theorem reRegister_cancels_incomplete_prior_witness :
    lookupA ((registerOp c1exH TaskType.after 5 none).1).heap 0 =
      some ((TASK_CANCELLED c1exOld []).1) ∧
    ((TASK_CANCELLED c1exOld []).1).status.cancelled = true ∧
    ((TASK_CANCELLED c1exOld []).1).settleLog =
      c1exOld.settleLog ++ [Settlement.resolvedWith c1exOld.refId] ∧
    ((((registerOp c1exH TaskType.after 5 none).1).registry).map Prod.fst).Nodup := by
  have hmain := reRegister_cancels_incomplete_prior c1exH TaskType.after 5 none 0 c1exOld
    (by decide) (by decide) (by decide) (by decide) rfl
  exact ⟨hmain.1, hmain.2.1, hmain.2.2.1 rfl, hmain.2.2.2⟩
